import Mathlib

/-!
Shallow embedding of the worker-list, disassociate and invites-send commands
of the CLI, together with proofs of the reconciliation properties.

Go maps (`map[string]int`, `map[string]*workerJob`) are modelled as
association lists whose key lists are duplicate-free; insertion appends at
the end and lookup takes the first match, which coincides with map semantics
under the no-duplicate invariant.
-/

namespace Cli

/-- One entry of the summary map built by `CmdList` (Go struct `workerJob`:
`scale int; running int`). Scale is an `Int` because the source performs no
validation of the values returned by the control plane. -/
structure WorkerJob where
  scale : Int
  running : Nat
deriving Repr, DecidableEq

/-- A job record as consumed by `CmdList` (fields `Target`, `Status` of the
jobs model). -/
structure Job where
  target : String
  status : String
deriving Repr, DecidableEq

/-- The part of the service model used by `CmdList`: its identifier and its
declared worker scale (`service.WorkerScale`). -/
structure Service where
  id : String
  workerScale : Int
deriving Repr, DecidableEq

/-- The workers model returned by `SWorker.Retrieve`: the field `Workers`,
a map from target name to declared scale. -/
structure Workers where
  workers : List (String × Int)
deriving Repr, DecidableEq

/-- First-match lookup in an association list: the meaning of `m[k]` on a Go
map represented as an association list. -/
def mapLookup {β : Type} : List (String × β) → String → Option β
  | [], _ => none
  | p :: rest, t => if p.1 = t then some p.2 else mapLookup rest t

/-- The key list of an association list. -/
def keysOf {β : Type} (m : List (String × β)) : List String :=
  m.map Prod.fst

/-- Lines 35-37 of list.go: initialize `workerJobs` from the declarations,
`workerJobs[target] = &workerJob{scale, 0}` for every declared target. -/
def initSummary (workers : List (String × Int)) : List (String × WorkerJob) :=
  workers.map (fun p => (p.1, ⟨p.2, 0⟩))

/-- Line 48 of list.go: `workerJobs[j.Target].running += 1`, an in-place
increment of the entry with the given key. -/
def bump (m : List (String × WorkerJob)) (t : String) : List (String × WorkerJob) :=
  m.map (fun p => if p.1 = t then (p.1, ⟨p.2.scale, p.2.running + 1⟩) else p)

/-- Lines 43-50 of list.go, one iteration of the job loop: insert
`{0, 0}` if the target is absent, then increment `running` when the status
is exactly "running". -/
def applyJob (m : List (String × WorkerJob)) (j : Job) : List (String × WorkerJob) :=
  let m' := if (mapLookup m j.target).isSome then m else m ++ [(j.target, ⟨0, 0⟩)]
  if j.status = "running" then bump m' j.target else m'

/-- The reconciliation performed by `CmdList` once both fetches succeeded:
the summary map after initialization from the declarations and the fold
over the job records. -/
def reconcile (workers : List (String × Int)) (jobs : List Job) : List (String × WorkerJob) :=
  jobs.foldl applyJob (initSummary workers)

/-- Lines 53-55 of list.go: `total` accumulates `wj.scale` over all summary
entries. -/
def sumScale (m : List (String × WorkerJob)) : Int :=
  (m.map fun p => p.2.scale).sum

/-- Number of job records with the given target whose status is exactly
"running". -/
def countRunning (js : List Job) (t : String) : Nat :=
  (js.filter fun j => j.target == t && j.status == "running").length

/-- The scale recorded for `t` in the summary, `0` when absent. -/
def scaleOf (m : List (String × WorkerJob)) (t : String) : Int :=
  ((mapLookup m t).map WorkerJob.scale).getD 0

/-- The running count recorded for `t` in the summary, `0` when absent. -/
def runningOf (m : List (String × WorkerJob)) (t : String) : Nat :=
  ((mapLookup m t).map WorkerJob.running).getD 0

/-- The observable outcome of `CmdList`: a propagated error, the
service-not-found error, the short-circuit report (which prints
"No running workers found" and "You are using `reportedUsed` out of your
available `workerScale` workers", then returns nil), or the rendered table
with its reported total. -/
inductive ListOutcome (ε : Type) where
  | failure : ε → ListOutcome ε
  | serviceNotFound : String → ListOutcome ε
  | noWorkers (svcName : String) (reportedUsed : Int) (workerScale : Int) : ListOutcome ε
  | table (summary : List (String × WorkerJob)) (total : Int) (workerScale : Int) : ListOutcome ε
deriving DecidableEq

/-- `CmdList` of src/commands/worker/list.go, parametrized by the results of
its three external calls (service resolution, worker-declaration fetch, job
fetch), in source order: each fetch error returns immediately, the jobs are
fetched before the emptiness check on the initialized summary, and the
emptiness check short-circuits before the job loop runs. -/
def cmdList {ε : Type} (svcName : String) (serviceRes : Except ε (Option Service))
    (workersRes : Except ε Workers) (jobsRes : Except ε (List Job)) : ListOutcome ε :=
  match serviceRes with
  | .error e => .failure e
  | .ok none => .serviceNotFound svcName
  | .ok (some service) =>
    match workersRes with
    | .error e => .failure e
    | .ok workers =>
      match jobsRes with
      | .error e => .failure e
      | .ok jobs =>
        let init := initSummary workers.workers
        if init.length = 0 then
          .noWorkers svcName 0 service.workerScale
        else
          let summary := jobs.foldl applyJob init
          .table summary (sumScale summary) service.workerScale

/-- Lines 52-57 of list.go: the data handed to the table writer, a header row
followed by one row per summary entry, in the order the entries are
iterated. Go's `range` over a map yields the entries in an order chosen by
the runtime (any permutation of the entries), so the rendering is a function
of that iteration order. -/
def tableData (entries : List (String × WorkerJob)) : List (List String) :=
  [["TARGET", "SCALE", "RUNNING JOBS"]] ++
    entries.map (fun p => [p.1, toString p.2.scale, toString p.2.running])

end Cli

namespace Invites

/-- Lines 134-137 of the invites command source: `role := "member"` then
`if adminRole then role = "admin"`. The member flag is parsed but never
consulted, so it is an ignored argument here. -/
def sendRole (memberFlag adminFlag : Bool) : String :=
  if adminFlag then "admin" else "member"

end Invites

namespace Disassociate

/-- The persisted configuration consulted by `Disassociate`: the
`settings.Environments` breadcrumb table, alias to environment identifier. -/
structure DisSettings where
  environments : List (String × String)
deriving Repr, DecidableEq

/-- Modelled from the spec: `config.DeleteBreadcrumb` is not under src/;
the spec says it "removes a local alias-to-environment mapping from
persisted configuration" and the call-site comment says it "removes the
environment from the settings.Environments array". It returns nothing and
cannot fail. -/
def DeleteBreadcrumb (al : String) (s : DisSettings) : DisSettings :=
  ⟨s.environments.filter fun p => p.1 ≠ al⟩

/-- Lines 98-104 of the disassociate source: delete the breadcrumb, print
the git-remote warning and the confirmation, return nil. The result is the
updated settings plus the printed lines; the error component is always
absent. -/
def disassociate (al : String) (s : DisSettings) :
    Except String (DisSettings × List String) :=
  let s' := DeleteBreadcrumb al s
  Except.ok (s', ["WARNING: Your existing git remote *has not* been removed.\n",
                  "Association cleared."])

end Disassociate

namespace Cli

theorem keysOf_cons {β : Type} (p : String × β) (rest : List (String × β)) :
    keysOf (p :: rest) = p.1 :: keysOf rest := rfl

theorem bump_cons (p : String × WorkerJob) (rest : List (String × WorkerJob)) (s : String) :
    bump (p :: rest) s =
      (if p.1 = s then (p.1, ⟨p.2.scale, p.2.running + 1⟩) else p) :: bump rest s := rfl

theorem mapLookup_isSome_iff {β : Type} (m : List (String × β)) (t : String) :
    (mapLookup m t).isSome ↔ t ∈ keysOf m := by
  induction m with
  | nil => simp [mapLookup, keysOf]
  | cons p rest ih =>
    by_cases h : p.1 = t
    · simp [mapLookup, keysOf_cons, h]
    · have h' : t ≠ p.1 := fun hh => h hh.symm
      simp [mapLookup, keysOf_cons, h, h', ih]

theorem mapLookup_append {β : Type} (m : List (String × β)) (s : String) (x : β) (t : String) :
    mapLookup (m ++ [(s, x)]) t =
      if (mapLookup m t).isSome then mapLookup m t
      else if s = t then some x else none := by
  induction m with
  | nil => simp [mapLookup]
  | cons p rest ih =>
    by_cases h : p.1 = t <;> simp [mapLookup, h, ih]

theorem mapLookup_bump (m : List (String × WorkerJob)) (s t : String) :
    mapLookup (bump m s) t =
      if s = t then (mapLookup m t).map (fun wj => ⟨wj.scale, wj.running + 1⟩)
      else mapLookup m t := by
  induction m with
  | nil => simp [bump, mapLookup]
  | cons p rest ih =>
    rw [bump_cons]
    by_cases hp : p.1 = s
    · by_cases ht : p.1 = t
      · have hst : s = t := hp.symm.trans ht
        simp [mapLookup, hp, ht, hst]
      · have hst : s ≠ t := fun h => ht (hp.trans h)
        simp [mapLookup, hp, ht, hst, ih]
    · by_cases ht : p.1 = t
      · have hst : s ≠ t := fun h => hp (ht.trans h.symm)
        have hts : t ≠ s := fun h => hst h.symm
        simp [mapLookup, hp, ht, hst, hts]
      · simp [mapLookup, hp, ht, ih]

theorem scaleOf_bump (m : List (String × WorkerJob)) (s t : String) :
    scaleOf (bump m s) t = scaleOf m t := by
  unfold scaleOf
  rw [mapLookup_bump]
  by_cases h : s = t
  · cases hm : mapLookup m t <;> simp [h, hm]
  · simp [h]

theorem scaleOf_append0 (m : List (String × WorkerJob)) (s t : String) :
    scaleOf (m ++ [(s, ⟨0, 0⟩)]) t = scaleOf m t := by
  unfold scaleOf
  rw [mapLookup_append]
  by_cases h : (mapLookup m t).isSome
  · simp [h]
  · rw [Option.not_isSome_iff_eq_none] at h
    by_cases hst : s = t <;> simp [h, hst]

theorem runningOf_bump (m : List (String × WorkerJob)) (s t : String) :
    runningOf (bump m s) t =
      runningOf m t + (if s = t ∧ (mapLookup m t).isSome then 1 else 0) := by
  unfold runningOf
  rw [mapLookup_bump]
  by_cases h : s = t
  · cases hm : mapLookup m t <;> simp [h, hm]
  · simp [h]

theorem runningOf_append0 (m : List (String × WorkerJob)) (s t : String) :
    runningOf (m ++ [(s, ⟨0, 0⟩)]) t = runningOf m t := by
  unfold runningOf
  rw [mapLookup_append]
  by_cases h : (mapLookup m t).isSome
  · simp [h]
  · rw [Option.not_isSome_iff_eq_none] at h
    by_cases hst : s = t <;> simp [h, hst]

theorem isSome_bump (m : List (String × WorkerJob)) (s t : String) :
    (mapLookup (bump m s) t).isSome = (mapLookup m t).isSome := by
  rw [mapLookup_bump]
  by_cases h : s = t <;> simp [h]

theorem isSome_append {β : Type} (m : List (String × β)) (s : String) (x : β) (t : String) :
    (mapLookup (m ++ [(s, x)]) t).isSome ↔ (mapLookup m t).isSome ∨ s = t := by
  rw [mapLookup_append]
  by_cases h : (mapLookup m t).isSome
  · simp [h]
  · by_cases hst : s = t <;> simp [h, hst]

theorem applyJob_eq (m : List (String × WorkerJob)) (j : Job) :
    applyJob m j =
      if j.status = "running" then
        bump (if (mapLookup m j.target).isSome then m else m ++ [(j.target, ⟨0, 0⟩)]) j.target
      else if (mapLookup m j.target).isSome then m else m ++ [(j.target, ⟨0, 0⟩)] := rfl

theorem initSummary_cons (p : String × Int) (rest : List (String × Int)) :
    initSummary (p :: rest) = (p.1, ⟨p.2, 0⟩) :: initSummary rest := rfl

theorem scaleOf_applyJob (m : List (String × WorkerJob)) (j : Job) (t : String) :
    scaleOf (applyJob m j) t = scaleOf m t := by
  rw [applyJob_eq]
  by_cases hrun : j.status = "running" <;> by_cases hpres : (mapLookup m j.target).isSome <;>
    simp [hrun, hpres, scaleOf_bump, scaleOf_append0]

theorem runningOf_applyJob (m : List (String × WorkerJob)) (j : Job) (t : String) :
    runningOf (applyJob m j) t =
      runningOf m t + (if j.target = t ∧ j.status = "running" then 1 else 0) := by
  rw [applyJob_eq]
  by_cases hrun : j.status = "running"
  · by_cases hpres : (mapLookup m j.target).isSome
    · rw [if_pos hrun, if_pos hpres, runningOf_bump]
      by_cases hjt : j.target = t
      · have h2 : (mapLookup m t).isSome := by rw [← hjt]; exact hpres
        simp [hjt, hrun, h2]
      · simp [hjt]
    · rw [if_pos hrun, if_neg hpres, runningOf_bump, runningOf_append0]
      by_cases hjt : j.target = t
      · have h1 : (mapLookup (m ++ [(j.target, ⟨0, 0⟩)]) t).isSome :=
          (isSome_append m j.target ⟨0, 0⟩ t).mpr (Or.inr hjt)
        rw [hjt] at h1
        have h2 : mapLookup (m ++ [(t, ⟨0, 0⟩)]) t ≠ none :=
          Option.isSome_iff_ne_none.mp h1
        simp [hjt, hrun, h1, h2]
      · simp [hjt]
  · rw [if_neg hrun]
    by_cases hpres : (mapLookup m j.target).isSome
    · simp [hpres, hrun]
    · simp [hpres, hrun, runningOf_append0]

theorem isSome_applyJob (m : List (String × WorkerJob)) (j : Job) (t : String) :
    (mapLookup (applyJob m j) t).isSome ↔ (mapLookup m t).isSome ∨ j.target = t := by
  rw [applyJob_eq]
  by_cases hrun : j.status = "running" <;> by_cases hpres : (mapLookup m j.target).isSome
  · rw [if_pos hrun, if_pos hpres, isSome_bump]
    exact ⟨Or.inl, fun h => h.elim id fun e => e ▸ hpres⟩
  · rw [if_pos hrun, if_neg hpres, isSome_bump, isSome_append]
  · rw [if_neg hrun, if_pos hpres]
    exact ⟨Or.inl, fun h => h.elim id fun e => e ▸ hpres⟩
  · rw [if_neg hrun, if_neg hpres, isSome_append]

theorem keysOf_bump (m : List (String × WorkerJob)) (s : String) :
    keysOf (bump m s) = keysOf m := by
  induction m with
  | nil => rfl
  | cons p rest ih =>
    rw [bump_cons, keysOf_cons, keysOf_cons, ih]
    by_cases hp : p.1 = s <;> simp [hp]

theorem keysOf_append {β : Type} (m : List (String × β)) (s : String) (x : β) :
    keysOf (m ++ [(s, x)]) = keysOf m ++ [s] := by
  simp [keysOf]

theorem keysOf_applyJob (m : List (String × WorkerJob)) (j : Job) :
    keysOf (applyJob m j) =
      if (mapLookup m j.target).isSome then keysOf m else keysOf m ++ [j.target] := by
  rw [applyJob_eq]
  by_cases hrun : j.status = "running" <;> by_cases hpres : (mapLookup m j.target).isSome <;>
    simp [hrun, hpres, keysOf_bump, keysOf_append]

theorem nodup_applyJob (m : List (String × WorkerJob)) (j : Job)
    (h : (keysOf m).Nodup) : (keysOf (applyJob m j)).Nodup := by
  rw [keysOf_applyJob]
  by_cases hpres : (mapLookup m j.target).isSome
  · simp [hpres, h]
  · have hnot : j.target ∉ keysOf m := fun hmem =>
      hpres ((mapLookup_isSome_iff m j.target).mpr hmem)
    simp [hpres, List.nodup_append, h, hnot]

theorem scaleOf_foldl (js : List Job) (m : List (String × WorkerJob)) (t : String) :
    scaleOf (js.foldl applyJob m) t = scaleOf m t := by
  induction js generalizing m with
  | nil => rfl
  | cons j js ih => rw [List.foldl_cons, ih, scaleOf_applyJob]

theorem countRunning_cons (j : Job) (js : List Job) (t : String) :
    countRunning (j :: js) t =
      (if j.target = t ∧ j.status = "running" then 1 else 0) + countRunning js t := by
  simp only [countRunning, List.filter_cons]
  by_cases h1 : j.target = t <;> by_cases h2 : j.status = "running" <;>
    simp [h1, h2, Nat.add_comm]

theorem countRunning_eq_zero (js : List Job) (t : String) (h : t ∉ js.map Job.target) :
    countRunning js t = 0 := by
  induction js with
  | nil => rfl
  | cons j js ih =>
    simp only [List.map_cons, List.mem_cons, not_or] at h
    rw [countRunning_cons, if_neg (fun hc => h.1 hc.1.symm), ih h.2]

theorem runningOf_foldl (js : List Job) (m : List (String × WorkerJob)) (t : String) :
    runningOf (js.foldl applyJob m) t = runningOf m t + countRunning js t := by
  induction js generalizing m with
  | nil => simp [countRunning]
  | cons j js ih =>
    rw [List.foldl_cons, ih, runningOf_applyJob, countRunning_cons, Nat.add_assoc]

theorem isSome_foldl (js : List Job) (m : List (String × WorkerJob)) (t : String) :
    (mapLookup (js.foldl applyJob m) t).isSome ↔
      (mapLookup m t).isSome ∨ t ∈ js.map Job.target := by
  induction js generalizing m with
  | nil => simp
  | cons j js ih =>
    rw [List.foldl_cons, ih, isSome_applyJob, List.map_cons, List.mem_cons]
    tauto

theorem nodup_foldl (js : List Job) (m : List (String × WorkerJob))
    (h : (keysOf m).Nodup) : (keysOf (js.foldl applyJob m)).Nodup := by
  induction js generalizing m with
  | nil => exact h
  | cons j js ih => rw [List.foldl_cons]; exact ih _ (nodup_applyJob m j h)

theorem mapLookup_init (D : List (String × Int)) (t : String) :
    mapLookup (initSummary D) t = (mapLookup D t).map (fun s => ⟨s, 0⟩) := by
  induction D with
  | nil => rfl
  | cons p rest ih =>
    rw [initSummary_cons]
    by_cases h : p.1 = t <;> simp [mapLookup, h, ih]

theorem keysOf_init (D : List (String × Int)) : keysOf (initSummary D) = keysOf D := by
  induction D with
  | nil => rfl
  | cons p rest ih => rw [initSummary_cons, keysOf_cons, keysOf_cons, ih]

theorem sumScale_cons (p : String × WorkerJob) (m : List (String × WorkerJob)) :
    sumScale (p :: m) = p.2.scale + sumScale m := by
  simp [sumScale]

theorem sumScale_bump (m : List (String × WorkerJob)) (s : String) :
    sumScale (bump m s) = sumScale m := by
  induction m with
  | nil => rfl
  | cons p rest ih =>
    rw [bump_cons, sumScale_cons, sumScale_cons, ih]
    by_cases hp : p.1 = s <;> simp [hp]

theorem sumScale_append0 (m : List (String × WorkerJob)) (s : String) :
    sumScale (m ++ [(s, ⟨0, 0⟩)]) = sumScale m := by
  simp [sumScale]

theorem sumScale_applyJob (m : List (String × WorkerJob)) (j : Job) :
    sumScale (applyJob m j) = sumScale m := by
  rw [applyJob_eq]
  by_cases hrun : j.status = "running" <;> by_cases hpres : (mapLookup m j.target).isSome <;>
    simp [hrun, hpres, sumScale_bump, sumScale_append0]

theorem sumScale_foldl (js : List Job) (m : List (String × WorkerJob)) :
    sumScale (js.foldl applyJob m) = sumScale m := by
  induction js generalizing m with
  | nil => rfl
  | cons j js ih => rw [List.foldl_cons, ih, sumScale_applyJob]

theorem sumScale_init (D : List (String × Int)) :
    sumScale (initSummary D) = (D.map fun p => p.2).sum := by
  induction D with
  | nil => rfl
  | cons p rest ih => rw [initSummary_cons, sumScale_cons, List.map_cons, List.sum_cons, ih]

theorem mapLookup_eq_none_of_not_mem {β : Type} (m : List (String × β)) (t : String)
    (h : t ∉ keysOf m) : mapLookup m t = none := by
  cases hm : mapLookup m t with
  | none => rfl
  | some x => exact absurd ((mapLookup_isSome_iff m t).mp (by simp [hm])) h

/-- C5: when the declarations map fetched for the service is empty, `CmdList`
prints the no-workers report with a usage total of 0 out of the service's
declared worker scale and returns nil; the job loop is skipped and no table
is rendered (the `noWorkers` outcome carries no summary). -/
theorem claim5_empty_declarations_short_circuit {ε : Type} (svcName : String)
    (s : Service) (J : List Job) :
    cmdList (ε := ε) svcName (Except.ok (some s)) (Except.ok ⟨[]⟩) (Except.ok J) =
      ListOutcome.noWorkers svcName 0 s.workerScale := rfl

/-- C8: the job fetch happens before the emptiness check in `CmdList`, so a
job-fetch error is returned even when the declarations map is empty and the
short-circuit path would never have used the job data. -/
theorem claim8_jobs_error_propagates {ε : Type} (svcName : String) (s : Service)
    (w : Workers) (e : ε) :
    cmdList svcName (Except.ok (some s)) (Except.ok w) (Except.error e) =
      ListOutcome.failure e := rfl

/-- C6 counterexample: with empty declarations and one running job for the
undeclared target "worker-x", `CmdList` takes the short-circuit branch and
renders no summary, while running the reconciler on the same inputs yields a
nonempty summary containing "worker-x" — so the two branches are not
observably equivalent for every job sequence. -/
theorem claim6_counterexample :
    cmdList (ε := Unit) "svc" (Except.ok (some ⟨"id", 5⟩)) (Except.ok ⟨[]⟩)
        (Except.ok [⟨"worker-x", "running"⟩]) =
      ListOutcome.noWorkers "svc" 0 5 ∧
    reconcile [] [⟨"worker-x", "running"⟩] = [("worker-x", ⟨0, 1⟩)] ∧
    reconcile [] [⟨"worker-x", "running"⟩] ≠ [] :=
  ⟨rfl, by decide, by decide⟩

/-- C6 amended: on empty declarations the reconciler always reports a scale
total of 0, agreeing with the short-circuit report, but its summary is empty
exactly when the job sequence is empty; for a nonempty job sequence the
reconciler surfaces the job targets while the short-circuit branch produces
no summary, so unifying the two branches is a behavior change. -/
theorem claim6_amended (J : List Job) :
    sumScale (reconcile [] J) = 0 ∧ (reconcile [] J = [] ↔ J = []) := by
  constructor
  · show sumScale (J.foldl applyJob (initSummary [])) = 0
    rw [sumScale_foldl]; rfl
  · constructor
    · intro h
      cases J with
      | nil => rfl
      | cons j js =>
        exfalso
        have hmem : j.target ∈ keysOf (reconcile [] (j :: js)) := by
          rw [← mapLookup_isSome_iff]
          show (mapLookup ((j :: js).foldl applyJob (initSummary [])) j.target).isSome
          rw [isSome_foldl]
          exact Or.inr (by simp)
        rw [h] at hmem
        simp [keysOf] at hmem
    · intro h
      subst h
      rfl

/-- C6 amended, witness at a concrete nonempty job sequence. -/
theorem claim6_amended_witness :
    sumScale (reconcile [] [⟨"worker-x", "running"⟩]) = 0 ∧
      (reconcile [] [⟨"worker-x", "running"⟩] = [] ↔
        ([⟨"worker-x", "running"⟩] : List Job) = []) :=
  claim6_amended [⟨"worker-x", "running"⟩]

/-- C7: the rows handed to the table writer are produced by iterating a Go
map, whose iteration order the runtime chooses afresh on every run; two
orders that are both permutations of the same summary yield different
rendered tables, so nothing in the code fixes the display order. -/
theorem claim7_order_not_determined :
    ∃ p₁ p₂ : List (String × WorkerJob),
      p₁.Perm (reconcile [("worker-a", 1), ("worker-b", 2)] []) ∧
      p₂.Perm (reconcile [("worker-a", 1), ("worker-b", 2)] []) ∧
      tableData p₁ ≠ tableData p₂ := by
  refine ⟨[("worker-a", ⟨1, 0⟩), ("worker-b", ⟨2, 0⟩)],
    [("worker-b", ⟨2, 0⟩), ("worker-a", ⟨1, 0⟩)], ?_, ?_, ?_⟩ <;> decide

end Cli

namespace Invites

/-- C10: the role string handed to the send operation lies in the closed
enumeration of member and admin, and it is admin exactly when the admin
flag is set. -/
theorem claim10_send_role_enumeration (memberFlag adminFlag : Bool) :
    (sendRole memberFlag adminFlag = "member" ∨ sendRole memberFlag adminFlag = "admin") ∧
      (sendRole memberFlag adminFlag = "admin" ↔ adminFlag = true) := by
  cases adminFlag
  · refine ⟨Or.inl rfl, ?_⟩
    show "member" = "admin" ↔ false = true
    decide
  · refine ⟨Or.inr rfl, ?_⟩
    show "admin" = "admin" ↔ true = true
    decide

end Invites

namespace Cli

/-- C1: for a declarations map with duplicate-free keys (the Go map
invariant), the key list of the reconciled summary is duplicate-free and a
target is a key exactly when it is declared or is the target of some job. -/
theorem claim1_summary_keys_exact (D : List (String × Int)) (J : List Job)
    (hD : (keysOf D).Nodup) :
    (keysOf (reconcile D J)).Nodup ∧
      ∀ t, t ∈ keysOf (reconcile D J) ↔ t ∈ keysOf D ∨ t ∈ J.map Job.target := by
  constructor
  · show (keysOf (J.foldl applyJob (initSummary D))).Nodup
    exact nodup_foldl J _ (by rw [keysOf_init]; exact hD)
  · intro t
    rw [← mapLookup_isSome_iff]
    show (mapLookup (J.foldl applyJob (initSummary D)) t).isSome ↔ _
    rw [isSome_foldl, mapLookup_isSome_iff, keysOf_init]

/-- C1, witness at concrete declarations and jobs. -/
theorem claim1_witness :
    (keysOf [("worker-a", (2 : Int))]).Nodup ∧
      ((keysOf (reconcile [("worker-a", 2)] [⟨"worker-x", "running"⟩])).Nodup ∧
        ∀ t, t ∈ keysOf (reconcile [("worker-a", 2)] [⟨"worker-x", "running"⟩]) ↔
          t ∈ keysOf [("worker-a", (2 : Int))] ∨
            t ∈ ([⟨"worker-x", "running"⟩] : List Job).map Job.target) :=
  ⟨by decide, claim1_summary_keys_exact [("worker-a", 2)] [⟨"worker-x", "running"⟩] (by decide)⟩

/-- C2: a target appearing only among the job records gets scale 0 in the
summary, and a target appearing only among the declarations gets running
count 0. -/
theorem claim2_only_one_source_defaults (D : List (String × Int)) (J : List Job) (t : String) :
    (t ∈ J.map Job.target → t ∉ keysOf D →
      ∃ wj, mapLookup (reconcile D J) t = some wj ∧ wj.scale = 0) ∧
    (t ∈ keysOf D → t ∉ J.map Job.target →
      ∃ wj, mapLookup (reconcile D J) t = some wj ∧ wj.running = 0) := by
  constructor
  · intro hJ hD
    have hsome : (mapLookup (reconcile D J) t).isSome := by
      show (mapLookup (J.foldl applyJob (initSummary D)) t).isSome
      rw [isSome_foldl]
      exact Or.inr hJ
    obtain ⟨wj, hwj⟩ := Option.isSome_iff_exists.mp hsome
    refine ⟨wj, hwj, ?_⟩
    have h0 : scaleOf (reconcile D J) t = 0 := by
      show scaleOf (J.foldl applyJob (initSummary D)) t = 0
      rw [scaleOf_foldl]
      unfold scaleOf
      rw [mapLookup_init, mapLookup_eq_none_of_not_mem D t hD]
      rfl
    unfold scaleOf at h0
    rw [hwj] at h0
    exact h0
  · intro hD hJ
    have hsome : (mapLookup (reconcile D J) t).isSome := by
      show (mapLookup (J.foldl applyJob (initSummary D)) t).isSome
      rw [isSome_foldl]
      refine Or.inl ?_
      rw [mapLookup_init]
      cases hm : mapLookup D t with
      | none => exact absurd ((mapLookup_isSome_iff D t).mpr hD) (by simp [hm])
      | some x => rfl
    obtain ⟨wj, hwj⟩ := Option.isSome_iff_exists.mp hsome
    refine ⟨wj, hwj, ?_⟩
    have h0 : runningOf (reconcile D J) t = 0 := by
      show runningOf (J.foldl applyJob (initSummary D)) t = 0
      rw [runningOf_foldl, countRunning_eq_zero J t hJ]
      unfold runningOf
      rw [mapLookup_init]
      cases mapLookup D t <;> rfl
    unfold runningOf at h0
    rw [hwj] at h0
    exact h0

/-- C2, witness: worker-x occurs only among the jobs, worker-a only among
the declarations. -/
theorem claim2_witness :
    (∃ wj, mapLookup (reconcile [("worker-a", 2)] [⟨"worker-x", "running"⟩]) "worker-x" =
      some wj ∧ wj.scale = 0) ∧
    (∃ wj, mapLookup (reconcile [("worker-a", 2)] [⟨"worker-x", "running"⟩]) "worker-a" =
      some wj ∧ wj.running = 0) :=
  ⟨(claim2_only_one_source_defaults [("worker-a", 2)] [⟨"worker-x", "running"⟩] "worker-x").1
      (by decide) (by decide),
   (claim2_only_one_source_defaults [("worker-a", 2)] [⟨"worker-x", "running"⟩] "worker-a").2
      (by decide) (by decide)⟩

/-- C3: whenever `CmdList` renders a table, the reported total is the sum of
the scale values over the summary entries, and for a fixed declarations map
the total is the same for every job sequence. -/
theorem claim3_total_sum_scale_indep_jobs {ε : Type} (svcName : String) (s : Service)
    (w : Workers) (J J' : List Job) (sm sm' : List (String × WorkerJob))
    (tot tot' ws ws' : Int)
    (h : cmdList (ε := ε) svcName (Except.ok (some s)) (Except.ok w) (Except.ok J) =
      ListOutcome.table sm tot ws)
    (h' : cmdList (ε := ε) svcName (Except.ok (some s)) (Except.ok w) (Except.ok J') =
      ListOutcome.table sm' tot' ws') :
    tot = sumScale sm ∧ tot = tot' := by
  simp only [cmdList] at h h'
  by_cases hlen : (initSummary w.workers).length = 0
  · rw [if_pos hlen] at h
    exact absurd h (by simp)
  · rw [if_neg hlen] at h
    rw [if_neg hlen] at h'
    simp only [ListOutcome.table.injEq] at h h'
    obtain ⟨hsm, htot, hws⟩ := h
    obtain ⟨hsm', htot', hws'⟩ := h'
    subst hsm htot hsm' htot'
    refine ⟨rfl, ?_⟩
    show sumScale (J.foldl applyJob (initSummary w.workers)) =
      sumScale (J'.foldl applyJob (initSummary w.workers))
    rw [sumScale_foldl, sumScale_foldl]

/-- C3, witness at the spec's scenario 1 against an empty job sequence. -/
theorem claim3_witness :
    (3 : Int) = sumScale [("worker-a", ⟨2, 2⟩), ("worker-b", ⟨1, 0⟩)] ∧ (3 : Int) = 3 :=
  claim3_total_sum_scale_indep_jobs (ε := Unit) "svc" ⟨"id", 5⟩
    ⟨[("worker-a", 2), ("worker-b", 1)]⟩
    [⟨"worker-a", "running"⟩, ⟨"worker-a", "running"⟩, ⟨"worker-b", "pending"⟩] []
    [("worker-a", ⟨2, 2⟩), ("worker-b", ⟨1, 0⟩)]
    [("worker-a", ⟨2, 0⟩), ("worker-b", ⟨1, 0⟩)]
    3 3 5 5 (by decide) (by decide)

/-- C4: every target in the summary has a running count equal to the number
of job records for it whose status is exactly "running", and every job,
whatever its status, contributes its target to the summary's key set. -/
theorem claim4_running_counts (D : List (String × Int)) (J : List Job) (t : String)
    (ht : t ∈ keysOf (reconcile D J)) :
    (∃ wj, mapLookup (reconcile D J) t = some wj ∧ wj.running = countRunning J t) ∧
      ∀ j ∈ J, j.target ∈ keysOf (reconcile D J) := by
  constructor
  · have hsome : (mapLookup (reconcile D J) t).isSome :=
      (mapLookup_isSome_iff _ t).mpr ht
    obtain ⟨wj, hwj⟩ := Option.isSome_iff_exists.mp hsome
    refine ⟨wj, hwj, ?_⟩
    have h0 : runningOf (reconcile D J) t = countRunning J t := by
      show runningOf (J.foldl applyJob (initSummary D)) t = countRunning J t
      rw [runningOf_foldl]
      have hinit : runningOf (initSummary D) t = 0 := by
        unfold runningOf
        rw [mapLookup_init]
        cases mapLookup D t <;> rfl
      rw [hinit, Nat.zero_add]
    unfold runningOf at h0
    rw [hwj] at h0
    exact h0
  · intro j hj
    rw [← mapLookup_isSome_iff]
    show (mapLookup (J.foldl applyJob (initSummary D)) j.target).isSome
    rw [isSome_foldl]
    exact Or.inr (List.mem_map_of_mem Job.target hj)

/-- C4, witness at the spec's scenario 1. -/
theorem claim4_witness :
    (∃ wj, mapLookup (reconcile [("worker-a", 2), ("worker-b", 1)]
        [⟨"worker-a", "running"⟩, ⟨"worker-a", "running"⟩, ⟨"worker-b", "pending"⟩]) "worker-a" =
      some wj ∧ wj.running = countRunning
        [⟨"worker-a", "running"⟩, ⟨"worker-a", "running"⟩, ⟨"worker-b", "pending"⟩] "worker-a") ∧
    ∀ j ∈ ([⟨"worker-a", "running"⟩, ⟨"worker-a", "running"⟩,
        ⟨"worker-b", "pending"⟩] : List Job),
      j.target ∈ keysOf (reconcile [("worker-a", 2), ("worker-b", 1)]
        [⟨"worker-a", "running"⟩, ⟨"worker-a", "running"⟩, ⟨"worker-b", "pending"⟩]) :=
  claim4_running_counts [("worker-a", 2), ("worker-b", 1)]
    [⟨"worker-a", "running"⟩, ⟨"worker-a", "running"⟩, ⟨"worker-b", "pending"⟩]
    "worker-a" (by decide)

end Cli

namespace Disassociate

/-- C9: Disassociate never returns an error and always emits the git-remote
warning; on an alias with no breadcrumb in the persisted configuration the
settings are returned unchanged (idempotent on a missing alias). -/
theorem claim9_disassociate_always_succeeds (al : String) (s : DisSettings) :
    (∃ s' msgs, disassociate al s = Except.ok (s', msgs) ∧
      "WARNING: Your existing git remote *has not* been removed.\n" ∈ msgs) ∧
    (al ∉ s.environments.map Prod.fst →
      disassociate al s = Except.ok (s,
        ["WARNING: Your existing git remote *has not* been removed.\n",
         "Association cleared."])) := by
  constructor
  · exact ⟨_, _, rfl, by simp⟩
  · intro hal
    unfold disassociate DeleteBreadcrumb
    have hfil : (s.environments.filter fun p => p.1 ≠ al) = s.environments := by
      rw [List.filter_eq_self]
      intro p hp
      rw [decide_eq_true_eq]
      exact fun h => hal (h ▸ List.mem_map_of_mem Prod.fst hp)
    rw [hfil]

/-- C9, witness on an alias with no existing breadcrumb. -/
theorem claim9_witness :
    (∃ s' msgs, disassociate "prod" ⟨[("dev", "env-1")]⟩ = Except.ok (s', msgs) ∧
      "WARNING: Your existing git remote *has not* been removed.\n" ∈ msgs) ∧
    disassociate "prod" ⟨[("dev", "env-1")]⟩ = Except.ok (⟨[("dev", "env-1")]⟩,
      ["WARNING: Your existing git remote *has not* been removed.\n",
       "Association cleared."]) :=
  ⟨(claim9_disassociate_always_succeeds "prod" ⟨[("dev", "env-1")]⟩).1,
   (claim9_disassociate_always_succeeds "prod" ⟨[("dev", "env-1")]⟩).2 (by decide)⟩

end Disassociate

namespace Invites

/-- C10, witness at concrete flag values. -/
theorem claim10_witness :
    ((sendRole true false = "member" ∨ sendRole true false = "admin") ∧
      (sendRole true false = "admin" ↔ false = true)) ∧
    ((sendRole false true = "member" ∨ sendRole false true = "admin") ∧
      (sendRole false true = "admin" ↔ true = true)) :=
  ⟨claim10_send_role_enumeration true false, claim10_send_role_enumeration false true⟩

end Invites
